import Mathlib

/-!
Verification of the client-side navigation engine of the dClimate STAC browser
demo (`src/main.ts`).  JavaScript strings are modelled as `List Char`; each
definition below is a direct translation of the corresponding function of the
source file.  Asynchronous collaborators (the verified-fetch resolution layer,
the browser history and location objects) are modelled as explicit inputs and
outputs of the navigation function.
-/

/-! ## JavaScript string primitives -/

/-- Whitespace recognised by JavaScript `String.prototype.trim`
(ASCII subset actually occurring in the inputs handled by the program). -/
def isJsWS (c : Char) : Bool :=
  c = ' ' || c = '\t' || c = '\n' || c = '\r' || c = '\x0B' || c = '\x0C'

/-- Drop the longest suffix whose characters all satisfy `p`
(the effect of a `/[...]+$/` replacement with the empty string). -/
def dropTrailingWhile (p : Char → Bool) (l : List Char) : List Char :=
  (l.reverse.dropWhile p).reverse

/-- JavaScript `String.prototype.trim`. -/
def jsTrim (l : List Char) : List Char :=
  dropTrailingWhile isJsWS (l.dropWhile isJsWS)

/-- JavaScript `String.prototype.startsWith` on character lists. -/
def startsWithL : List Char → List Char → Bool
  | [], _ => true
  | _ :: _, [] => false
  | p :: ps, c :: cs => p == c && startsWithL ps cs

/-- JavaScript `String.prototype.includes`: `hasSubstr pat l` holds when `pat`
occurs contiguously inside `l`. -/
def hasSubstr (pat : List Char) : List Char → Bool
  | [] => pat.isEmpty
  | c :: cs => startsWithL pat (c :: cs) || hasSubstr pat cs

/-- JavaScript `String.prototype.replace` with a plain-string pattern:
replace the first occurrence of `pat` by `rep`, leaving the string unchanged
when `pat` does not occur. -/
def replaceFirstSub (pat rep : List Char) : List Char → List Char
  | [] => if pat.isEmpty then rep else []
  | c :: cs =>
    if startsWithL pat (c :: cs) then rep ++ (c :: cs).drop pat.length
    else c :: replaceFirstSub pat rep cs

/-- Replace every occurrence of the single character `t` by the string `rep`
(JavaScript `str.replace(/t/g, rep)` for a one-character pattern). -/
def replaceAllChar (t : Char) (rep : List Char) : List Char → List Char
  | [] => []
  | c :: cs => (if c = t then rep else [c]) ++ replaceAllChar t rep cs

/-! ## Reference constants of `main.ts` -/

/-- Canonical content scheme, the literal `ipfs://`. -/
def ipfsScheme : List Char := "ipfs://".data

/-- Name scheme, the literal `ipns://`. -/
def ipnsScheme : List Char := "ipns://".data

/-- Root-relative path marker, the literal `/ipfs/`. -/
def ipfsPath : List Char := "/ipfs/".data

/-- Address-bar fragment marker, the literal `#/ipfs/`. -/
def hashIpfsMark : List Char := "#/ipfs/".data

/-- The apostrophe character (written numerically). -/
def apos : Char := Char.ofNat 39

/-- Trailing punctuation stripped by `normalizeIpfsUrl`'s first cleanup,
the character set of `/[,.:;'"]+$/`. -/
def isTrailPunct (c : Char) : Bool :=
  c = ',' || c = '.' || c = ':' || c = ';' || c = apos || c = '"'

/-- Single trailing character stripped from an extracted identifier,
the character set of `/[,.;'"]$/` (note: no colon). -/
def isCidTrailPunct (c : Char) : Bool :=
  c = ',' || c = '.' || c = ';' || c = apos || c = '"'

/-! ## Reference normalizer (`normalizeIpfsUrl`, main.ts lines 380-401) -/

/-- Cleanup step of `normalizeIpfsUrl`:
`url.trim().replace(/[,.:;'"]+$/, "")`. -/
def cleanUrlOf (url : List Char) : List Char :=
  dropTrailingWhile isTrailPunct (jsTrim url)

/-- Character admitted inside an extracted identifier by the regex
character set `[^\/\s"]`. -/
def isCidChar (c : Char) : Bool :=
  !(c = '/' || c = '"' || isJsWS c)

/-- First match of `/\/ipfs\/([^\/\s"]*)/`: scan for the leftmost occurrence
of the literal `/ipfs/` and return the capture group (the longest following
run of characters that are not a slash, whitespace or a double quote). -/
def firstIpfsCapture : List Char → Option (List Char)
  | [] => none
  | c :: cs =>
    if startsWithL ipfsPath (c :: cs) then some ((cs.drop 5).takeWhile isCidChar)
    else firstIpfsCapture cs

/-- Effect of `cid.replace(/[,.;'"]$/, "")`: strip one trailing character of
the restricted punctuation set, if present. -/
def stripOneCidPunct (cid : List Char) : List Char :=
  match cid.getLast? with
  | some c => if isCidTrailPunct c then cid.dropLast else cid
  | none => cid

/-- Translation of `normalizeIpfsUrl` (main.ts lines 380-401): normalize
heterogeneous textual reference forms to the canonical `ipfs://` form. -/
def normalizeIpfsUrl (url : List Char) : List Char :=
  let cleanUrl := cleanUrlOf url
  if startsWithL ipfsScheme cleanUrl then cleanUrl
  else if startsWithL ipfsPath cleanUrl then ipfsScheme ++ cleanUrl.drop 6
  else
    match firstIpfsCapture cleanUrl with
    | some cap =>
      if cap.isEmpty then cleanUrl else ipfsScheme ++ stripOneCidPunct cap
    | none => cleanUrl

/-! ## HTML escaping (`escapeHtml`, main.ts lines 406-413) -/

/-- Translation of `escapeHtml`: five sequential global single-character
replacements, ampersand first. -/
def escapeHtml (str : List Char) : List Char :=
  replaceAllChar apos ("&#039;".data)
    (replaceAllChar '"' ("&quot;".data)
      (replaceAllChar '>' ("&gt;".data)
        (replaceAllChar '<' ("&lt;".data)
          (replaceAllChar '&' ("&amp;".data) str))))

/-! ## Link discovery and rewriting (`makeIpfsLinksClickable`, main.ts 317-367)

The rewriter turns a text node into markup: interstitial text is kept verbatim
and each regex match becomes an anchor element.  The anchor markup is
abstracted to its two semantically relevant parts, the `data-ipfs-url`
attribute (the normalized reference) and the visible label. -/

/-- Piece of the markup produced for one text node: verbatim text or an
interactive link carrying the normalized reference and its visible label. -/
inductive Segment where
  | text (s : List Char)
  | link (dataIpfsUrl label : List Char)
deriving DecidableEq, Repr

/-- Character admitted by the regex set `[^\s"]` used in all three
alternatives of the link pattern. -/
def isRunChar (c : Char) : Bool := !(isJsWS c || c = '"')

/-- Longest run of `[^\s"]` characters at the front of the input. -/
def runOf (l : List Char) : List Char := l.takeWhile isRunChar

/-- Literal `https://`. -/
def httpsMark : List Char := "https://".data

/-- Literal `http://`. -/
def httpMark : List Char := "http://".data

/-- Match attempt of the pattern
`(https?:\/\/[^\s"]*\/ipfs\/[^\s"]*|ipfs:\/\/[^\s"]*|\/ipfs\/[^\s"]*)`
anchored at the current position, alternatives tried in order; returns the
matched text and the remaining input.  For the gateway alternative the
backtracking semantics reduce to: the maximal `[^\s"]` run after the scheme
must contain `/ipfs/`, and the whole run is consumed. -/
def tryMatchAt (l : List Char) : Option (List Char × List Char) :=
  if startsWithL httpsMark l then
    let r := runOf (l.drop 8)
    if hasSubstr ipfsPath r then some (httpsMark ++ r, l.drop (8 + r.length))
    else none
  else if startsWithL httpMark l then
    let r := runOf (l.drop 7)
    if hasSubstr ipfsPath r then some (httpMark ++ r, l.drop (7 + r.length))
    else none
  else if startsWithL ipfsScheme l then
    let r := runOf (l.drop 7)
    some (ipfsScheme ++ r, l.drop (7 + r.length))
  else if startsWithL ipfsPath l then
    let r := runOf (l.drop 6)
    some (ipfsPath ++ r, l.drop (6 + r.length))
  else none

/-- Quote characters stripped from the end of a match by the callback's
`match.trim().replace(/["']+$/, "")`. -/
def isQuoteChar (c : Char) : Bool := c = '"' || c = apos

/-- Replacement callback of `makeIpfsLinksClickable` (main.ts 339-357):
clean the match, normalize it, and emit the anchor with the normalized
reference as `data-ipfs-url` and the cleaned match as visible label. -/
def mkLinkSeg (m : List Char) : Segment :=
  let cleanMatch := dropTrailingWhile isQuoteChar (jsTrim m)
  Segment.link (normalizeIpfsUrl cleanMatch) cleanMatch

/-- Worker of the global regex replacement: scan left to right, attempting a
match at every position, emitting accumulated plain text (held reversed in
`acc`) before each match.  `fuel` bounds the recursion; it is always at least
the input length plus one, so the zero case is unreachable. -/
def replaceIpfsGo : Nat → List Char → List Char → List Segment
  | _, acc, [] => if acc.isEmpty then [] else [Segment.text acc.reverse]
  | 0, acc, l => [Segment.text (acc.reverse ++ l)]
  | fuel + 1, acc, c :: cs =>
    match tryMatchAt (c :: cs) with
    | some (m, rest) =>
      (if acc.isEmpty then [] else [Segment.text acc.reverse])
        ++ mkLinkSeg m :: replaceIpfsGo fuel [] rest
    | none => replaceIpfsGo fuel (c :: acc) cs

/-- Global regex replacement `content.replace(/(...)/g, callback)` of
main.ts lines 337-359, as a list of markup segments. -/
def replaceIpfsLinks (content : List Char) : List Segment :=
  replaceIpfsGo (content.length + 1) [] content

/-- Per-text-node behaviour of `makeIpfsLinksClickable` (main.ts 330-366):
`some segs` when the node's text contains `/ipfs/` and the node is replaced
by a container with the rewritten markup; `none` when the node is left
untouched. -/
def makeClickableNode (content : List Char) : Option (List Segment) :=
  if hasSubstr ipfsPath content then some (replaceIpfsLinks content) else none

/-- Markup that ends up in place of a processed text node: the rewritten
segments when the node was replaced, the original text otherwise. -/
def processedSegments (content : List Char) : List Segment :=
  match makeClickableNode content with
  | some segs => segs
  | none => [Segment.text content]

/-- Visible text of a segment list: anchors display their label. -/
def visibleText : List Segment → List Char
  | [] => []
  | Segment.text s :: rest => s ++ visibleText rest
  | Segment.link _ label :: rest => label ++ visibleText rest

/-- Interactive links of a segment list, as (normalized reference, label). -/
def linkSegs : List Segment → List (List Char × List Char)
  | [] => []
  | Segment.text _ :: rest => linkSegs rest
  | Segment.link u lab :: rest => (u, lab) :: linkSegs rest

/-! ## Address-bar fragment (`updateUrlHash` 303-312, `getIpfsUrlFromHash`
292-298) -/

/-- Value of `window.location.hash` after `updateUrlHash(ipfsUrl)` runs:
the fragment `/ipfs/<cid>` (the browser prepends the `#`), where `<cid>` is
the URL with its first `ipfs://` occurrence removed. -/
def updateUrlHashResult (ipfsUrl : List Char) : List Char :=
  '#' :: (ipfsPath ++ replaceFirstSub ipfsScheme [] ipfsUrl)

/-- Translation of `getIpfsUrlFromHash`: a reference is recovered only from a
hash that is non-empty and starts with `#/ipfs/`; the hash minus its `#` is
then normalized. -/
def getIpfsUrlFromHash (hash : List Char) : Option (List Char) :=
  if hash.isEmpty then none
  else if startsWithL hashIpfsMark hash then
    some (normalizeIpfsUrl (hash.drop 1))
  else none

/-- Bootstrap decision of `runDemo` (main.ts 168-175). -/
inductive BootAction where
  | loadIpfs (url : List Char)
  | loadDefault
deriving DecidableEq, Repr

/-- Content-loading path chosen by `runDemo` from the address-bar hash:
a recovered deep link is loaded (without pushing history), otherwise the
default content is loaded. -/
def bootstrapNav (hash : List Char) : BootAction :=
  match getIpfsUrlFromHash hash with
  | some url => BootAction.loadIpfs url
  | none => BootAction.loadDefault

/-! ## Navigation controller (`loadIpfsContent`, main.ts 418-615)

The resolution collaborator is modelled per the external-interface contract:
a response carries a declared content type, a body retrievable as text, and a
flag telling whether its body parses as JSON (together with the pretty-printed
`JSON.stringify(..., null, 2)` rendering when it does).  Browser history and
the address bar appear as explicit inputs (current history state) and outputs
(history write performed, hash written). -/

/-- Literal `application/json`. -/
def jsonCT : List Char := "application/json".data

/-- Literal `text/plain`. -/
def textPlainCT : List Char := "text/plain".data

/-- Response of the resolution collaborator (`verifiedFetchFn`). -/
structure Response where
  contentType : Option (List Char)
  jsonOk : Bool
  jsonPretty : List Char
  body : List Char
deriving DecidableEq, Repr

/-- Result of awaiting the resolution collaborator: a response, or a thrown
network/validation error with its message. -/
inductive FetchResult where
  | ok (r : Response)
  | err (msg : List Char)
deriving DecidableEq, Repr

/-- Error classification of a failed navigation. -/
inductive NavError where
  | invalidReference (url : List Char)
  | resolutionFailure (msg : List Char)
deriving DecidableEq, Repr

/-- Document body committed by a finished navigation.  `jsonPage` is the
pretty-printed JSON in a preformatted block with links rewritten; `htmlPage`
is markup rendered directly; `textPage` is escaped text with links rewritten;
`textPlain` is the decode-fallback rendering (escaped text, links NOT
rewritten, see main.ts 543-554); `errorView` is the error container. -/
inductive View where
  | jsonPage (segs : List Segment)
  | htmlPage (raw : List Char)
  | textPage (segs : List Segment)
  | textPlain (escaped : List Char)
  | errorView (e : NavError)
deriving DecidableEq, Repr

/-- History state payload (main.ts 17-21); `content` holds the rendered
document abstracted as its `View`. -/
structure PageState where
  ipfsUrl : List Char
  content : View
  contentType : List Char
deriving DecidableEq, Repr

/-- History side effect of one navigation. -/
inductive HistoryWrite where
  | push (s : PageState)
  | replaceState (s : PageState)
  | noWrite
deriving DecidableEq, Repr

/-- Observable outcome of one `loadIpfsContent` call. -/
structure Outcome where
  resolveCalled : Bool
  view : View
  historyWrite : HistoryWrite
  hashWritten : Option (List Char)
deriving DecidableEq, Repr

/-- Validation guard of `loadIpfsContent` (main.ts 423-429):
`!ipfsUrl || (!startsWith("ipfs://") && !startsWith("ipns://"))` rejects. -/
def validRef (url : List Char) : Bool :=
  !(url.isEmpty || (!startsWithL ipfsScheme url && !startsWithL ipnsScheme url))

/-- Content-type test `contentType?.includes("application/json")`. -/
def isJsonCT (ct : Option (List Char)) : Bool :=
  match ct with
  | some s => hasSubstr jsonCT s
  | none => false

/-- Markup heuristic `text.trim().startsWith("<") && text.includes("</")`. -/
def looksLikeHtml (text : List Char) : Bool :=
  startsWithL ("<".data) (jsTrim text) && hasSubstr ("</".data) text

/-- Stored content type `contentType || "text/plain"`. -/
def ctOrDefault (ct : Option (List Char)) : List Char :=
  match ct with
  | some s => if s.isEmpty then textPlainCT else s
  | none => textPlainCT

/-- History write on the normal success path (main.ts 523-538): push when
requested; otherwise replace only when the current history state is null. -/
def historyNormal (updateHistory : Bool) (histState : Option PageState)
    (ps : PageState) : HistoryWrite :=
  if updateHistory then HistoryWrite.push ps
  else if histState.isNone then HistoryWrite.replaceState ps
  else HistoryWrite.noWrite

/-- Translation of `loadIpfsContent(ipfsUrl, updateHistory)`
(main.ts 418-615).  `fetch` is the awaited collaborator result and
`histState` the value of `window.history.state` at the time of the call. -/
def loadIpfsContent (ipfsUrl : List Char) (updateHistory : Bool)
    (fetch : FetchResult) (histState : Option PageState) : Outcome :=
  if validRef ipfsUrl then
    let newHash := some (updateUrlHashResult ipfsUrl)
    match fetch with
    | FetchResult.err m =>
      { resolveCalled := true, view := View.errorView (NavError.resolutionFailure m),
        historyWrite := HistoryWrite.noWrite, hashWritten := newHash }
    | FetchResult.ok r =>
      if isJsonCT r.contentType then
        if r.jsonOk then
          let segs := processedSegments r.jsonPretty
          let ps : PageState := ⟨ipfsUrl, View.jsonPage segs, jsonCT⟩
          { resolveCalled := true, view := View.jsonPage segs,
            historyWrite := historyNormal updateHistory histState ps,
            hashWritten := newHash }
        else
          let esc := escapeHtml r.body
          let ps : PageState := ⟨ipfsUrl, View.textPlain esc, textPlainCT⟩
          { resolveCalled := true, view := View.textPlain esc,
            historyWrite :=
              if updateHistory then HistoryWrite.push ps else HistoryWrite.noWrite,
            hashWritten := newHash }
      else
        if looksLikeHtml r.body then
          let ps : PageState := ⟨ipfsUrl, View.htmlPage r.body, ctOrDefault r.contentType⟩
          { resolveCalled := true, view := View.htmlPage r.body,
            historyWrite := historyNormal updateHistory histState ps,
            hashWritten := newHash }
        else
          let segs := processedSegments (escapeHtml r.body)
          let ps : PageState := ⟨ipfsUrl, View.textPage segs, ctOrDefault r.contentType⟩
          { resolveCalled := true, view := View.textPage segs,
            historyWrite := historyNormal updateHistory histState ps,
            hashWritten := newHash }
  else
    { resolveCalled := false,
      view := View.errorView (NavError.invalidReference ipfsUrl),
      historyWrite := HistoryWrite.noWrite, hashWritten := none }

/-- Discriminator for the error view. -/
def isErrorView : View → Bool
  | View.errorView _ => true
  | _ => false

/-! ## Quick sanity examples (model evaluation on concrete inputs) -/

example : normalizeIpfsUrl ("/ipfs/QmABC".data) = "ipfs://QmABC".data := by decide

example : normalizeIpfsUrl ("http://ex.com/ipfs/QmABC,".data) = "ipfs://QmABC".data := by
  decide

example : normalizeIpfsUrl ("ipfs://QmA .".data) = "ipfs://QmA ".data := by decide

example : escapeHtml ("a<b".data) = "a&lt;b".data := by decide

example :
    processedSegments ("Check /ipfs/QmABC123 for data.".data) =
      [Segment.text ("Check ".data),
       Segment.link ("ipfs://QmABC123".data) ("/ipfs/QmABC123".data),
       Segment.text (" for data.".data)] := by decide

example : getIpfsUrlFromHash (updateUrlHashResult ("ipns://k5".data)) =
    some ("ipfs://ipns://k5".data) := by decide

/-! ## Helper lemmas -/

theorem startsWithL_append_self (a b : List Char) : startsWithL a (a ++ b) = true := by
  induction a with
  | nil => rfl
  | cons c cs ih => simp [startsWithL, ih]

theorem mem_of_head?_eq {l : List Char} {a : Char} (h : l.head? = some a) : a ∈ l := by
  cases l with
  | nil => simp at h
  | cons c cs =>
    simp at h
    subst h
    exact List.mem_cons_self _ _

theorem mem_of_getLast?_eq {l : List Char} {a : Char} (h : l.getLast? = some a) :
    a ∈ l := by
  rw [← List.head?_reverse] at h
  exact List.mem_reverse.mp (mem_of_head?_eq h)

theorem dropWhile_eq_self_of_head (p : Char → Bool) (l : List Char)
    (h : ∀ c, l.head? = some c → p c = false) : l.dropWhile p = l := by
  cases l with
  | nil => rfl
  | cons c cs =>
    rw [List.dropWhile_cons, h c rfl]
    simp

theorem dropTrailingWhile_eq_self (p : Char → Bool) (l : List Char)
    (h : ∀ c, l.getLast? = some c → p c = false) : dropTrailingWhile p l = l := by
  unfold dropTrailingWhile
  rw [dropWhile_eq_self_of_head, List.reverse_reverse]
  intro c hc
  rw [List.head?_reverse] at hc
  exact h c hc

theorem cleanUrlOf_eq_self (l : List Char)
    (hhd : ∀ c, l.head? = some c → isJsWS c = false)
    (hlast : ∀ c, l.getLast? = some c → isJsWS c = false ∧ isTrailPunct c = false) :
    cleanUrlOf l = l := by
  unfold cleanUrlOf jsTrim
  rw [dropWhile_eq_self_of_head _ _ hhd,
    dropTrailingWhile_eq_self _ _ (fun c hc => (hlast c hc).1),
    dropTrailingWhile_eq_self _ _ (fun c hc => (hlast c hc).2)]

theorem getLast?_append_of_ne_nil (a id : List Char) (h : id ≠ []) :
    (a ++ id).getLast? = id.getLast? := by
  rw [List.getLast?_append]
  cases hl : id.getLast? with
  | some c => rfl
  | none => exact absurd (List.getLast?_eq_none_iff.mp hl) h

theorem replaceFirstSub_of_starts (pat rep l : List Char)
    (h : startsWithL pat l = true) :
    replaceFirstSub pat rep l = rep ++ l.drop pat.length := by
  cases l with
  | nil =>
    cases pat with
    | nil => simp [replaceFirstSub]
    | cons p ps => simp [startsWithL] at h
  | cons c cs => simp [replaceFirstSub, h]

theorem mem_replaceAllChar {c : Char} (t : Char) (rep l : List Char)
    (h : c ∈ replaceAllChar t rep l) : c ∈ rep ∨ (c ∈ l ∧ c ≠ t) := by
  induction l with
  | nil => simp [replaceAllChar] at h
  | cons x xs ih =>
    simp only [replaceAllChar, List.mem_append] at h
    rcases h with h | h
    · by_cases hx : x = t
      · rw [if_pos hx] at h
        exact Or.inl h
      · rw [if_neg hx] at h
        simp at h
        subst h
        exact Or.inr ⟨List.mem_cons_self _ _, hx⟩
    · rcases ih h with h2 | ⟨h2, h3⟩
      · exact Or.inl h2
      · exact Or.inr ⟨List.mem_cons_of_mem _ h2, h3⟩

/-! ## Claim C1 -/

/-- C1: every reference string that starts with neither `ipfs://` nor
`ipns://` makes `loadIpfsContent` fail fast: the reference is classified
invalid, the error view is rendered, nothing is written to history or to the
address bar, and the resolution collaborator is never called. -/
theorem c1_invalid_scheme_fails_fast (url : List Char) (updateHistory : Bool)
    (fetch : FetchResult) (histState : Option PageState)
    (h1 : startsWithL ipfsScheme url = false)
    (h2 : startsWithL ipnsScheme url = false) :
    loadIpfsContent url updateHistory fetch histState =
      { resolveCalled := false,
        view := View.errorView (NavError.invalidReference url),
        historyWrite := HistoryWrite.noWrite, hashWritten := none } := by
  unfold loadIpfsContent validRef
  rw [h1, h2]
  simp

/-- C1 witness: the concrete invalid reference of the specification example
makes no resolution call and renders the error view. -/
theorem c1_witness :
    loadIpfsContent ("not-a-valid-ref".data) true (FetchResult.err []) none =
      { resolveCalled := false,
        view := View.errorView (NavError.invalidReference ("not-a-valid-ref".data)),
        historyWrite := HistoryWrite.noWrite, hashWritten := none } :=
  c1_invalid_scheme_fails_fast ("not-a-valid-ref".data) true (FetchResult.err [])
    none (by decide) (by decide)

/-! ## Claim C4 -/

/-- C4: a text node whose content has no occurrence of the trigger substring
`/ipfs/` is left completely unchanged by the link rewriter (no replacement is
performed), so the visible text equals the input text exactly. -/
theorem c4_rewriter_preserves_nonmatching (t : List Char)
    (h : hasSubstr ipfsPath t = false) :
    makeClickableNode t = none ∧ visibleText (processedSegments t) = t := by
  constructor
  · unfold makeClickableNode
    rw [h]
    simp
  · unfold processedSegments makeClickableNode
    rw [h]
    simp [visibleText]

/-- C4 witness: a concrete non-matching text is untouched. -/
theorem c4_witness :
    makeClickableNode ("hello ipfs: no trigger here".data) = none ∧
      visibleText (processedSegments ("hello ipfs: no trigger here".data)) =
        "hello ipfs: no trigger here".data :=
  c4_rewriter_preserves_nonmatching ("hello ipfs: no trigger here".data) (by decide)

/-! ## Claim C5 -/

/-- Specification example input for the rewriter. -/
def c5Input : List Char := "Check /ipfs/QmABC123 for data.".data

/-- C5: on `Check /ipfs/QmABC123 for data.` the rewriter produces exactly one
interactive link; its normalized reference attribute is `ipfs://QmABC123`,
the canonical form of the identifier (no trailing period), and its visible
label is `/ipfs/QmABC123`; the surrounding text is kept verbatim. -/
theorem c5_concrete_example :
    processedSegments c5Input =
      [Segment.text ("Check ".data),
       Segment.link ("ipfs://QmABC123".data) ("/ipfs/QmABC123".data),
       Segment.text (" for data.".data)] ∧
    linkSegs (processedSegments c5Input) =
      [(("ipfs://QmABC123").data, ("/ipfs/QmABC123").data)] := by
  decide

/-! ## Claim C6 -/

/-- C6: when the response declares content type `application/json` but the
body fails to parse as JSON, the decode failure is caught locally and the
navigation degrades to rendering the body as escaped plain text; the
navigation does not end in the error view. -/
theorem c6_decode_failure_degrades (url : List Char) (updateHistory : Bool)
    (r : Response) (histState : Option PageState)
    (hv : validRef url = true)
    (hct : isJsonCT r.contentType = true)
    (hbad : r.jsonOk = false) :
    (loadIpfsContent url updateHistory (FetchResult.ok r) histState).view =
      View.textPlain (escapeHtml r.body) ∧
    isErrorView
      (loadIpfsContent url updateHistory (FetchResult.ok r) histState).view =
      false := by
  simp [loadIpfsContent, hv, hct, hbad, isErrorView]

/-- Concrete malformed-JSON response for the C6 witness. -/
def c6Resp : Response := ⟨some jsonCT, false, [], "not json".data⟩

/-- C6 witness: a concrete navigation with declared JSON and unparseable body
renders escaped text, not the error view. -/
theorem c6_witness :
    (loadIpfsContent ("ipfs://QmJ".data) true (FetchResult.ok c6Resp) none).view =
      View.textPlain (escapeHtml ("not json".data)) ∧
    isErrorView
      (loadIpfsContent ("ipfs://QmJ".data) true (FetchResult.ok c6Resp) none).view =
      false :=
  c6_decode_failure_degrades ("ipfs://QmJ".data) true c6Resp none
    (by decide) (by decide) (by decide)

/-! ## Claim C9 -/

/-- Character free of any of the four markup-sensitive specials. -/
def okChar (c : Char) : Bool := !(c = '<' || c = '>' || c = '"' || c = apos)

theorem okChar_spec {c : Char} (h : okChar c = true) :
    c ≠ '<' ∧ c ≠ '>' ∧ c ≠ '"' ∧ c ≠ apos := by
  simp [okChar] at h
  tauto

/-- C9: the output of `escapeHtml` never contains a raw `<`, `>`, double
quote or apostrophe — each was replaced by its HTML entity — so escaped text
cannot introduce new elements or break out of attribute values. -/
theorem c9_escapeHtml_no_specials (s : List Char) (c : Char)
    (h : c ∈ escapeHtml s) :
    c ≠ '<' ∧ c ≠ '>' ∧ c ≠ '"' ∧ c ≠ apos := by
  unfold escapeHtml at h
  rcases mem_replaceAllChar _ _ _ h with h5 | ⟨h5, hne5⟩
  · exact okChar_spec (List.all_eq_true.mp (by decide) c h5)
  rcases mem_replaceAllChar _ _ _ h5 with h4 | ⟨h4, hne4⟩
  · exact okChar_spec (List.all_eq_true.mp (by decide) c h4)
  rcases mem_replaceAllChar _ _ _ h4 with h3 | ⟨h3, hne3⟩
  · exact okChar_spec (List.all_eq_true.mp (by decide) c h3)
  rcases mem_replaceAllChar _ _ _ h3 with h2 | ⟨h2, hne2⟩
  · exact okChar_spec (List.all_eq_true.mp (by decide) c h2)
  exact ⟨hne2, hne3, hne4, hne5⟩

/-- C9 witness: applied to the output of escaping a concrete string holding
every special character. -/
theorem c9_witness : '&' ≠ '<' ∧ '&' ≠ '>' ∧ '&' ≠ '"' ∧ '&' ≠ apos :=
  c9_escapeHtml_no_specials ("<p>".data) '&' (by decide)

/-! ## Claim C10 -/

/-- C10: `getIpfsUrlFromHash` recovers a reference exactly when the
address-bar hash starts with `#/ipfs/`; for every other hash (the empty hash
and `#/ipns/...` forms included) it returns `none`, so bootstrap runs the
default-content path instead of restoring a deep link. -/
theorem c10_hash_gate (hash : List Char) :
    (getIpfsUrlFromHash hash).isSome = startsWithL hashIpfsMark hash ∧
    (bootstrapNav hash = BootAction.loadDefault ↔
      startsWithL hashIpfsMark hash = false) := by
  cases hash with
  | nil => decide
  | cons c cs =>
    unfold bootstrapNav getIpfsUrlFromHash
    by_cases hp : startsWithL hashIpfsMark (c :: cs) = true
    · simp [hp]
    · rw [Bool.not_eq_true] at hp
      simp [hp]

/-! ## Claim C2 (corrected) -/

/-- Counterexample input to idempotence of the normalizer. -/
def c2CounterInput : List Char := "ipfs://a .".data

/-- C2 counterexample: the normalizer is not idempotent for all inputs — on
`ipfs://a .` one application strips the trailing period, exposing a trailing
space (`ipfs://a `), and a second application trims further (`ipfs://a`). -/
theorem c2_counterexample :
    normalizeIpfsUrl (normalizeIpfsUrl c2CounterInput) ≠
      normalizeIpfsUrl c2CounterInput := by
  decide

/-! ## Claim C7 (corrected) -/

/-- Concrete valid reference used by the C7 counterexample. -/
def c7Url : List Char := "ipfs://QmX".data

/-- Concrete successful JSON response used by the C7 counterexample. -/
def c7Resp : Response := ⟨some jsonCT, true, "2".data, "2".data⟩

/-- Concrete non-null prior history state used by the C7 counterexample. -/
def c7PrevState : PageState := ⟨c7Url, View.htmlPage [], textPlainCT⟩

/-- C7 counterexample: a successful navigation with `pushHistory = false`
while the current history state is non-null writes nothing at all to
history — neither a push nor the replace the claim requires. -/
theorem c7_counterexample :
    (loadIpfsContent c7Url false (FetchResult.ok c7Resp)
        (some c7PrevState)).historyWrite = HistoryWrite.noWrite ∧
    isErrorView (loadIpfsContent c7Url false (FetchResult.ok c7Resp)
        (some c7PrevState)).view = false := by
  decide

/-! ## Claim C8 (corrected) -/

/-- Concrete accepted name-scheme reference for the C8 counterexample. -/
def c8CounterRef : List Char := "ipns://k51demo".data

/-- C8 counterexample: the name-scheme reference `ipns://k51demo` is accepted
by navigate, yet writing the address-bar fragment and reading it back on
bootstrap yields `ipfs://ipns://k51demo`, not the original reference. -/
theorem c8_counterexample :
    validRef c8CounterRef = true ∧
    getIpfsUrlFromHash (updateUrlHashResult c8CounterRef) ≠ some c8CounterRef := by
  decide

/-- Shape of the normalizer's result: either it carries the canonical scheme
as its first characters, or it equals the cleaned input and no branch of the
normalizer fired on that cleaned input. -/
theorem normalize_shape (x : List Char) :
    startsWithL ipfsScheme (normalizeIpfsUrl x) = true ∨
    (normalizeIpfsUrl x = cleanUrlOf x ∧
      startsWithL ipfsScheme (cleanUrlOf x) = false ∧
      startsWithL ipfsPath (cleanUrlOf x) = false ∧
      (firstIpfsCapture (cleanUrlOf x) = none ∨
        ∃ cap, firstIpfsCapture (cleanUrlOf x) = some cap ∧ cap.isEmpty = true)) := by
  by_cases h1 : startsWithL ipfsScheme (cleanUrlOf x) = true
  · left
    simp [normalizeIpfsUrl, h1]
  · rw [Bool.not_eq_true] at h1
    by_cases h2 : startsWithL ipfsPath (cleanUrlOf x) = true
    · left
      simp [normalizeIpfsUrl, h1, h2, startsWithL_append_self]
    · rw [Bool.not_eq_true] at h2
      cases hcap : firstIpfsCapture (cleanUrlOf x) with
      | none =>
        right
        refine ⟨?_, h1, h2, Or.inl rfl⟩
        simp [normalizeIpfsUrl, h1, h2, hcap]
      | some cap =>
        by_cases hemp : cap.isEmpty = true
        · right
          refine ⟨?_, h1, h2, Or.inr ⟨cap, rfl, hemp⟩⟩
          simp [normalizeIpfsUrl, h1, h2, hcap, hemp]
        · left
          rw [Bool.not_eq_true] at hemp
          simp [normalizeIpfsUrl, h1, h2, hcap, hemp, startsWithL_append_self]

/-- C2 amended: the normalizer is idempotent on every input whose normalized
form is already fixed by the cleanup step (no leading or trailing whitespace
and no trailing punctuation); in general a second application can strip
further characters, as the counterexample shows. -/
theorem c2_amended (x : List Char)
    (h : cleanUrlOf (normalizeIpfsUrl x) = normalizeIpfsUrl x) :
    normalizeIpfsUrl (normalizeIpfsUrl x) = normalizeIpfsUrl x := by
  have key : ∀ y : List Char, cleanUrlOf y = y →
      (startsWithL ipfsScheme y = true ∨
        (startsWithL ipfsScheme y = false ∧ startsWithL ipfsPath y = false ∧
          (firstIpfsCapture y = none ∨
            ∃ cap, firstIpfsCapture y = some cap ∧ cap.isEmpty = true))) →
      normalizeIpfsUrl y = y := by
    intro y hy hshape
    rcases hshape with hs1 | ⟨hs1, hs2, hs34⟩
    · simp [normalizeIpfsUrl, hy, hs1]
    · rcases hs34 with hnone | ⟨cap, hcap, hemp⟩
      · simp [normalizeIpfsUrl, hy, hs1, hs2, hnone]
      · simp [normalizeIpfsUrl, hy, hs1, hs2, hcap, hemp]
  rcases normalize_shape x with h1 | ⟨heq, h2, h3, h4⟩
  · exact key _ h (Or.inl h1)
  · refine key _ h (Or.inr ?_)
    rw [heq]
    exact ⟨h2, h3, h4⟩

/-- C2 witness: a clean canonical input is a fixed point and idempotence
holds there. -/
theorem c2_witness :
    normalizeIpfsUrl (normalizeIpfsUrl ("ipfs://QmAbc".data)) =
      normalizeIpfsUrl ("ipfs://QmAbc".data) :=
  c2_amended ("ipfs://QmAbc".data) (by decide)

/-- Content type stored in the PageState snapshot of a successful
navigation, per branch of `loadIpfsContent`. -/
def ctStored (r : Response) : List Char :=
  if isJsonCT r.contentType then (if r.jsonOk then jsonCT else textPlainCT)
  else ctOrDefault r.contentType

/-- C7 amended: on every successful navigation the history write is a `push`
of the PageState snapshot (rendered view plus stored content type) when
`pushHistory` is true; when `pushHistory` is false, a `replace` of the
snapshot happens only if the current history state is null and the
navigation did not take the JSON decode-fallback path — otherwise nothing is
written to history. -/
theorem c7_amended (url : List Char) (updateHistory : Bool) (r : Response)
    (histState : Option PageState) (hv : validRef url = true) :
    (loadIpfsContent url updateHistory (FetchResult.ok r) histState).historyWrite =
      (if updateHistory then
        HistoryWrite.push
          ⟨url,
            (loadIpfsContent url updateHistory (FetchResult.ok r) histState).view,
            ctStored r⟩
      else if histState.isNone && !(isJsonCT r.contentType && !r.jsonOk) then
        HistoryWrite.replaceState
          ⟨url,
            (loadIpfsContent url updateHistory (FetchResult.ok r) histState).view,
            ctStored r⟩
      else HistoryWrite.noWrite) := by
  cases updateHistory <;> cases histState <;>
    by_cases hct : isJsonCT r.contentType = true <;>
      by_cases hjs : r.jsonOk = true <;>
        by_cases hhtml : looksLikeHtml r.body = true <;>
          simp [loadIpfsContent, historyNormal, ctStored, hv, hct, hjs, hhtml]

/-- C7 witness: with `pushHistory = true` the concrete successful JSON
navigation pushes the snapshot of the rendered view and content type. -/
theorem c7_witness :
    (loadIpfsContent c7Url true (FetchResult.ok c7Resp) none).historyWrite =
      HistoryWrite.push
        ⟨c7Url, (loadIpfsContent c7Url true (FetchResult.ok c7Resp) none).view,
          ctStored c7Resp⟩ := by
  have h := c7_amended c7Url true c7Resp none (by decide)
  simpa using h

/-- C8 amended: the address-bar fragment encoding round-trips exactly for
content-scheme references `ipfs://<id>` whose identifier does not end in
whitespace or in a cleanup punctuation character; name-scheme (`ipns://`)
references are accepted by navigate but do not round-trip, as the
counterexample shows. -/
theorem c8_amended (id : List Char)
    (h : (id.getLast?.all fun c => !(isJsWS c || isTrailPunct c)) = true) :
    getIpfsUrlFromHash (updateUrlHashResult (ipfsScheme ++ id)) =
      some (ipfsScheme ++ id) := by
  have hrep : replaceFirstSub ipfsScheme [] (ipfsScheme ++ id) = id := by
    rw [replaceFirstSub_of_starts _ _ _ (startsWithL_append_self _ _),
      List.drop_left]
    rfl
  have hclean : cleanUrlOf (ipfsPath ++ id) = ipfsPath ++ id := by
    apply cleanUrlOf_eq_self
    · intro c hc
      rw [show (ipfsPath ++ id).head? = some '/' from rfl] at hc
      injection hc with h2
      rw [← h2]
      decide
    · intro c hc
      rw [List.getLast?_append] at hc
      cases hid : id.getLast? with
      | none =>
        rw [hid] at hc
        rw [show (Option.none.or ipfsPath.getLast?) = some '/' from rfl] at hc
        injection hc with h2
        rw [← h2]
        decide
      | some d =>
        rw [hid] at hc
        injection hc with h2
        rw [hid] at h
        rw [show (Option.some d).all (fun c => !(isJsWS c || isTrailPunct c)) =
          (!(isJsWS d || isTrailPunct d)) from rfl] at h
        subst h2
        simp at h
        exact ⟨by simp [h.1], by simp [h.2]⟩
  have hnorm : normalizeIpfsUrl (ipfsPath ++ id) = ipfsScheme ++ id := by
    have hb1 : startsWithL ipfsScheme (ipfsPath ++ id) = false := rfl
    have hb2 : startsWithL ipfsPath (ipfsPath ++ id) = true :=
      startsWithL_append_self _ _
    simp only [normalizeIpfsUrl, hclean, hb1, hb2]
    rw [show (ipfsPath ++ id).drop 6 = id from rfl]
    simp
  unfold updateUrlHashResult
  rw [hrep]
  unfold getIpfsUrlFromHash
  have hne : ('#' :: (ipfsPath ++ id)).isEmpty = false := rfl
  have hstart : startsWithL hashIpfsMark ('#' :: (ipfsPath ++ id)) = true := by
    rw [show '#' :: (ipfsPath ++ id) = hashIpfsMark ++ id from rfl]
    exact startsWithL_append_self _ _
  rw [hne, hstart]
  simp only [Bool.false_eq_true, if_false, if_true]
  rw [show ('#' :: (ipfsPath ++ id)).drop 1 = ipfsPath ++ id from rfl, hnorm]

/-- C8 witness: a concrete clean content identifier round-trips through the
fragment encoding. -/
theorem c8_witness :
    getIpfsUrlFromHash (updateUrlHashResult (ipfsScheme ++ ("QmW".data))) =
      some (ipfsScheme ++ ("QmW".data)) :=
  c8_amended ("QmW".data) (by decide)

/-! ## Claim C3: agreement of the three surface forms -/

/-- No occurrence of the `/ipfs/` marker begins at a position strictly inside
`pre` (occurrences straddling into `rest` included). -/
def noPatStart : List Char → List Char → Prop
  | [], _ => True
  | c :: cs, rest => startsWithL ipfsPath (c :: (cs ++ rest)) = false ∧ noPatStart cs rest

theorem firstIpfsCapture_append (pre rest : List Char) (h : noPatStart pre rest) :
    firstIpfsCapture (pre ++ rest) = firstIpfsCapture rest := by
  induction pre with
  | nil => rfl
  | cons c cs ih =>
    obtain ⟨h1, h2⟩ := h
    rw [List.cons_append]
    simp only [firstIpfsCapture, h1]
    simp only [Bool.false_eq_true, if_false]
    exact ih h2

theorem firstIpfsCapture_at_mark (id : List Char) :
    firstIpfsCapture (ipfsPath ++ id) = some (id.takeWhile isCidChar) := by
  have h1 : startsWithL ipfsPath (ipfsPath ++ id) = true := startsWithL_append_self _ _
  rw [show ipfsPath ++ id = '/' :: ("ipfs/".data ++ id) from rfl] at h1 ⊢
  simp only [firstIpfsCapture, h1, if_true]
  rw [show ("ipfs/".data ++ id).drop 5 = id from rfl]

theorem ipfs_slash_not_start (host id : List Char)
    (hh : (host.all fun c => !(c = '/')) = true) (hne : host ≠ "ipfs".data) :
    startsWithL ("ipfs/".data) (host ++ (ipfsPath ++ id)) = false := by
  match host, hh, hne with
  | [], _, _ => rfl
  | [a], _, _ =>
    rw [show ([a] ++ (ipfsPath ++ id)) = a :: ('/' :: ("ipfs/".data ++ id)) from rfl,
      show startsWithL ("ipfs/".data) (a :: ('/' :: ("ipfs/".data ++ id))) =
        (('i' == a) && startsWithL ("pfs/".data) ('/' :: ("ipfs/".data ++ id)))
        from rfl,
      show startsWithL ("pfs/".data) ('/' :: ("ipfs/".data ++ id)) = false from rfl,
      Bool.and_false]
  | [a, b], _, _ =>
    rw [show ([a, b] ++ (ipfsPath ++ id)) = a :: b :: ('/' :: ("ipfs/".data ++ id))
        from rfl,
      show startsWithL ("ipfs/".data) (a :: b :: ('/' :: ("ipfs/".data ++ id))) =
        (('i' == a) && (('p' == b) &&
          startsWithL ("fs/".data) ('/' :: ("ipfs/".data ++ id)))) from rfl,
      show startsWithL ("fs/".data) ('/' :: ("ipfs/".data ++ id)) = false from rfl,
      Bool.and_false, Bool.and_false]
  | [a, b, c], _, _ =>
    rw [show ([a, b, c] ++ (ipfsPath ++ id)) =
        a :: b :: c :: ('/' :: ("ipfs/".data ++ id)) from rfl,
      show startsWithL ("ipfs/".data) (a :: b :: c :: ('/' :: ("ipfs/".data ++ id))) =
        (('i' == a) && (('p' == b) && (('f' == c) &&
          startsWithL ("s/".data) ('/' :: ("ipfs/".data ++ id))))) from rfl,
      show startsWithL ("s/".data) ('/' :: ("ipfs/".data ++ id)) = false from rfl,
      Bool.and_false, Bool.and_false, Bool.and_false]
  | [a, b, c, d], _, hne4 =>
    rw [show ([a, b, c, d] ++ (ipfsPath ++ id)) =
        a :: b :: c :: d :: ('/' :: ("ipfs/".data ++ id)) from rfl]
    by_contra hcon
    rw [Bool.not_eq_false] at hcon
    simp only [startsWithL, Bool.and_eq_true, beq_iff_eq] at hcon
    obtain ⟨h1, h2, h3, h4, _⟩ := hcon
    apply hne4
    rw [← h1, ← h2, ← h3, ← h4]
  | a :: b :: c :: d :: e :: t, hh5, _ =>
    rw [show ((a :: b :: c :: d :: e :: t) ++ (ipfsPath ++ id)) =
        a :: b :: c :: d :: e :: (t ++ (ipfsPath ++ id)) from rfl]
    by_contra hcon
    rw [Bool.not_eq_false] at hcon
    simp only [startsWithL, Bool.and_eq_true, beq_iff_eq] at hcon
    obtain ⟨_, _, _, _, h5, _⟩ := hcon
    have he : (!(e = '/')) = true := List.all_eq_true.mp hh5 e (by simp)
    rw [← h5] at he
    simp at he

theorem noPatStart_no_slash (host rest : List Char)
    (hh : (host.all fun c => !(c = '/')) = true) : noPatStart host rest := by
  induction host with
  | nil => trivial
  | cons c cs ih =>
    rw [List.all_cons, Bool.and_eq_true] at hh
    refine ⟨?_, ih hh.2⟩
    have hc : ¬(c = '/') := by simpa using hh.1
    have hbeq : ('/' == c) = false := by
      simp only [beq_eq_false_iff_ne]
      exact fun hcc => hc hcc.symm
    rw [show startsWithL ipfsPath (c :: (cs ++ rest)) =
      (('/' == c) && startsWithL ("ipfs/".data) (cs ++ rest)) from rfl, hbeq,
      Bool.false_and]

theorem noPatStart_https (host id : List Char)
    (hh : (host.all fun c => !(c = '/')) = true) (hne : host ≠ "ipfs".data) :
    noPatStart ("https://".data) (host ++ (ipfsPath ++ id)) := by
  rw [show ("https://".data) =
    'h' :: 't' :: 't' :: 'p' :: 's' :: ':' :: '/' :: '/' :: [] from rfl]
  simp only [noPatStart]
  refine ⟨rfl, rfl, rfl, rfl, rfl, rfl, rfl, ?_, trivial⟩
  rw [show startsWithL ipfsPath ('/' :: ([] ++ (host ++ (ipfsPath ++ id)))) =
    (('/' == '/') && startsWithL ("ipfs/".data) (host ++ (ipfsPath ++ id)))
    from rfl, ipfs_slash_not_start host id hh hne, Bool.and_false]

theorem noPatStart_http (host id : List Char)
    (hh : (host.all fun c => !(c = '/')) = true) (hne : host ≠ "ipfs".data) :
    noPatStart ("http://".data) (host ++ (ipfsPath ++ id)) := by
  rw [show ("http://".data) =
    'h' :: 't' :: 't' :: 'p' :: ':' :: '/' :: '/' :: [] from rfl]
  simp only [noPatStart]
  refine ⟨rfl, rfl, rfl, rfl, rfl, rfl, ?_, trivial⟩
  rw [show startsWithL ipfsPath ('/' :: ([] ++ (host ++ (ipfsPath ++ id)))) =
    (('/' == '/') && startsWithL ("ipfs/".data) (host ++ (ipfsPath ++ id)))
    from rfl, ipfs_slash_not_start host id hh hne, Bool.and_false]

theorem cidPunct_imp_trailPunct {c : Char} (h : isCidTrailPunct c = true) :
    isTrailPunct c = true := by
  simp [isCidTrailPunct] at h
  simp [isTrailPunct]
  tauto

/-- Branch lemma: a cleaned-up fixed point starting with the canonical
scheme is returned unchanged. -/
theorem normalizeIpfsUrl_scheme (u : List Char) (hcl : cleanUrlOf u = u)
    (h1 : startsWithL ipfsScheme u = true) : normalizeIpfsUrl u = u := by
  simp [normalizeIpfsUrl, hcl, h1]

/-- Branch lemma: a cleaned-up fixed point starting with the bare path form
is rewritten to the canonical scheme plus the substring after the marker. -/
theorem normalizeIpfsUrl_path (u : List Char) (hcl : cleanUrlOf u = u)
    (h1 : startsWithL ipfsScheme u = false) (h2 : startsWithL ipfsPath u = true) :
    normalizeIpfsUrl u = ipfsScheme ++ u.drop 6 := by
  simp [normalizeIpfsUrl, hcl, h1, h2]

/-- Branch lemma: when neither scheme branch fires and the first capture is
non-empty, the normalizer returns the canonical scheme plus the capture with
one trailing punctuation character stripped. -/
theorem normalizeIpfsUrl_capture (u cap : List Char)
    (hcl : cleanUrlOf u = u)
    (h1 : startsWithL ipfsScheme u = false)
    (h2 : startsWithL ipfsPath u = false)
    (hcap : firstIpfsCapture u = some cap)
    (hemp : cap.isEmpty = false) :
    normalizeIpfsUrl u = ipfsScheme ++ stripOneCidPunct cap := by
  simp [normalizeIpfsUrl, hcl, h1, h2, hcap, hemp]

/-- C3: for every identifier (non-empty, made only of identifier characters
admissible in a capture and free of cleanup punctuation) the three accepted
surface forms — an absolute HTTP(S) gateway URL containing `/ipfs/<id>`, the
canonical scheme form `ipfs://<id>`, and the bare root-relative path
`/ipfs/<id>` — are all mapped by the normalizer to the identical canonical
reference `ipfs://<id>`. -/
theorem c3_surface_forms (scheme host id : List Char)
    (hs : scheme = "https://".data ∨ scheme = "http://".data)
    (hh : (host.all fun c => !(c = '/')) = true)
    (hne : host ≠ "ipfs".data)
    (hid0 : id ≠ [])
    (hid : (id.all fun c => isCidChar c && !isTrailPunct c) = true) :
    normalizeIpfsUrl (scheme ++ (host ++ (ipfsPath ++ id))) = ipfsScheme ++ id ∧
    normalizeIpfsUrl (ipfsPath ++ id) = ipfsScheme ++ id ∧
    normalizeIpfsUrl (ipfsScheme ++ id) = ipfsScheme ++ id := by
  have hidlast : ∀ c, id.getLast? = some c →
      isJsWS c = false ∧ isTrailPunct c = false := by
    intro c hc
    have hm := mem_of_getLast?_eq hc
    have hall := List.all_eq_true.mp hid c hm
    rcases (Bool.and_eq_true _ _) ▸ hall with ⟨h1, h2⟩
    constructor
    · simp only [isCidChar, Bool.not_eq_true', Bool.or_eq_false_iff] at h1
      exact h1.2
    · simpa using h2
  have htake : id.takeWhile isCidChar = id :=
    List.takeWhile_eq_self_iff.mpr (fun c hc =>
      ((Bool.and_eq_true _ _ ▸ List.all_eq_true.mp hid c hc).1))
  have hempty : id.isEmpty = false := by
    cases id with
    | nil => exact absurd rfl hid0
    | cons a as => rfl
  have hstrip : stripOneCidPunct id = id := by
    unfold stripOneCidPunct
    cases hl : id.getLast? with
    | none => rfl
    | some d =>
      have hd := (hidlast d hl).2
      have hcd : isCidTrailPunct d = false := by
        cases hcd0 : isCidTrailPunct d
        · rfl
        · rw [cidPunct_imp_trailPunct hcd0] at hd
          exact absurd hd (by decide)
      show (if isCidTrailPunct d = true then id.dropLast else id) = id
      rw [hcd]
      simp
  have hne1 : ipfsPath ++ id ≠ [] := by
    intro hcontra
    rcases List.append_eq_nil.mp hcontra with ⟨h1', _⟩
    exact absurd h1' (by decide)
  have hne2 : host ++ (ipfsPath ++ id) ≠ [] := by
    intro hcontra
    rcases List.append_eq_nil.mp hcontra with ⟨_, h2'⟩
    exact hne1 h2'
  have hcleanB : cleanUrlOf (ipfsPath ++ id) = ipfsPath ++ id := by
    apply cleanUrlOf_eq_self
    · intro c hc
      rw [show (ipfsPath ++ id).head? = some '/' from rfl] at hc
      injection hc with h2
      rw [← h2]
      decide
    · intro c hc
      rw [getLast?_append_of_ne_nil _ _ hid0] at hc
      exact hidlast c hc
  have hbare : normalizeIpfsUrl (ipfsPath ++ id) = ipfsScheme ++ id := by
    rw [normalizeIpfsUrl_path _ hcleanB rfl (startsWithL_append_self _ _),
      show (ipfsPath ++ id).drop 6 = id from rfl]
  have hcleanC : cleanUrlOf (ipfsScheme ++ id) = ipfsScheme ++ id := by
    apply cleanUrlOf_eq_self
    · intro c hc
      rw [show (ipfsScheme ++ id).head? = some 'i' from rfl] at hc
      injection hc with h2
      rw [← h2]
      decide
    · intro c hc
      rw [getLast?_append_of_ne_nil _ _ hid0] at hc
      exact hidlast c hc
  have hcanon : normalizeIpfsUrl (ipfsScheme ++ id) = ipfsScheme ++ id :=
    normalizeIpfsUrl_scheme _ hcleanC (startsWithL_append_self _ _)
  refine ⟨?_, hbare, hcanon⟩
  rcases hs with rfl | rfl
  · have hcleanG :
        cleanUrlOf ("https://".data ++ (host ++ (ipfsPath ++ id))) =
          "https://".data ++ (host ++ (ipfsPath ++ id)) := by
      apply cleanUrlOf_eq_self
      · intro c hc
        rw [show ("https://".data ++ (host ++ (ipfsPath ++ id))).head? = some 'h'
          from rfl] at hc
        injection hc with h2
        rw [← h2]
        decide
      · intro c hc
        rw [getLast?_append_of_ne_nil _ _ hne2,
          getLast?_append_of_ne_nil _ _ hne1,
          getLast?_append_of_ne_nil _ _ hid0] at hc
        exact hidlast c hc
    have hb1 :
        startsWithL ipfsScheme ("https://".data ++ (host ++ (ipfsPath ++ id))) =
          false := rfl
    have hb2 :
        startsWithL ipfsPath ("https://".data ++ (host ++ (ipfsPath ++ id))) =
          false := rfl
    have hcap :
        firstIpfsCapture ("https://".data ++ (host ++ (ipfsPath ++ id))) =
          some id := by
      rw [firstIpfsCapture_append _ _ (noPatStart_https host id hh hne),
        firstIpfsCapture_append _ _ (noPatStart_no_slash host _ hh),
        firstIpfsCapture_at_mark, htake]
    rw [normalizeIpfsUrl_capture _ id hcleanG hb1 hb2 hcap hempty, hstrip]
  · have hcleanG :
        cleanUrlOf ("http://".data ++ (host ++ (ipfsPath ++ id))) =
          "http://".data ++ (host ++ (ipfsPath ++ id)) := by
      apply cleanUrlOf_eq_self
      · intro c hc
        rw [show ("http://".data ++ (host ++ (ipfsPath ++ id))).head? = some 'h'
          from rfl] at hc
        injection hc with h2
        rw [← h2]
        decide
      · intro c hc
        rw [getLast?_append_of_ne_nil _ _ hne2,
          getLast?_append_of_ne_nil _ _ hne1,
          getLast?_append_of_ne_nil _ _ hid0] at hc
        exact hidlast c hc
    have hb1 :
        startsWithL ipfsScheme ("http://".data ++ (host ++ (ipfsPath ++ id))) =
          false := rfl
    have hb2 :
        startsWithL ipfsPath ("http://".data ++ (host ++ (ipfsPath ++ id))) =
          false := rfl
    have hcap :
        firstIpfsCapture ("http://".data ++ (host ++ (ipfsPath ++ id))) =
          some id := by
      rw [firstIpfsCapture_append _ _ (noPatStart_http host id hh hne),
        firstIpfsCapture_append _ _ (noPatStart_no_slash host _ hh),
        firstIpfsCapture_at_mark, htake]
    rw [normalizeIpfsUrl_capture _ id hcleanG hb1 hb2 hcap hempty, hstrip]

/-- C3 witness: the three surface forms of the identifier `QmABC123` on the
gateway host `example.com` all normalize to `ipfs://QmABC123`. -/
theorem c3_witness :
    normalizeIpfsUrl
        (("https://".data) ++ (("example.com".data) ++ (ipfsPath ++ ("QmABC123".data))))
        = ipfsScheme ++ ("QmABC123".data) ∧
    normalizeIpfsUrl (ipfsPath ++ ("QmABC123".data)) =
      ipfsScheme ++ ("QmABC123".data) ∧
    normalizeIpfsUrl (ipfsScheme ++ ("QmABC123".data)) =
      ipfsScheme ++ ("QmABC123".data) :=
  c3_surface_forms ("https://".data) ("example.com".data) ("QmABC123".data)
    (Or.inl rfl) (by decide) (by decide) (by decide) (by decide)
